import Mathlib

/-! Verification of the query-optimizer orchestration (`plan/optimizer.go`) and the
transactional memory buffer (`kv/memdb_buffer.go`, `BufferStore`) of the
repository, as a shallow embedding in Lean 4.

External collaborators that the source only calls into (the plan builder, the
privilege manager, the eight rule bodies, the statistics/cost-search callbacks,
the goleveldb in-memory table, the underlying retriever) are embedded as
explicit oracle parameters; the orchestration itself is translated line by
line from the Go source.
-/

/-! Part 1: logical plan trees (`plan` package).

JoinType enumerates the join kinds of the source (`InnerJoin`, `LeftOuterJoin`,
`RightOuterJoin`, `SemiJoin`, `AntiSemiJoin`, `LeftOuterSemiJoin`,
`AntiLeftOuterSemiJoin`). -/
inductive JoinType where
  | innerJoin
  | leftOuterJoin
  | rightOuterJoin
  | semiJoin
  | antiSemiJoin
  | leftOuterSemiJoin
  | antiLeftOuterSemiJoin
deriving DecidableEq, Repr

/-- A logical plan tree. `logicalJoin` carries the join type, the
`EqualConditions` slice (conditions abstracted to identifiers; only the length
is ever inspected by the embedded code) and the children; `otherNode` stands
for every non-join logical operator, of which the embedded code only ever
reads `Children()`. -/
inductive LogicalPlan where
  | logicalJoin (joinType : JoinType) (equalConditions : List Nat)
      (children : List LogicalPlan)
  | otherNode (children : List LogicalPlan)

mutual

/-- Embedding of `existsCartesianProduct` (optimizer.go:179-189): at a join
whose `EqualConditions` is empty, return the join-type test without looking
at the children; otherwise scan the children recursively. -/
def existsCartesianProduct : LogicalPlan → Bool
  | LogicalPlan.logicalJoin joinType equalConditions children =>
      if equalConditions.length = 0 then
        joinType == JoinType.innerJoin || joinType == JoinType.leftOuterJoin ||
          joinType == JoinType.rightOuterJoin
      else
        existsCartesianProductList children
  | LogicalPlan.otherNode children => existsCartesianProductList children

/-- The `for _, child := range p.Children()` loop of `existsCartesianProduct`,
short-circuiting on the first child that reports a cartesian product. -/
def existsCartesianProductList : List LogicalPlan → Bool
  | [] => false
  | c :: cs => existsCartesianProduct c || existsCartesianProductList cs

end

mutual

/-- Predicate written after the claim text, for comparison with the code:
some join node anywhere in the tree has zero equality conditions and join
type inner/left-outer/right-outer. -/
def specCartesianAnywhere : LogicalPlan → Bool
  | LogicalPlan.logicalJoin joinType equalConditions children =>
      (equalConditions.isEmpty &&
        (joinType == JoinType.innerJoin || joinType == JoinType.leftOuterJoin ||
          joinType == JoinType.rightOuterJoin)) ||
      specCartesianAnywhereList children
  | LogicalPlan.otherNode children => specCartesianAnywhereList children

/-- Child scan for `specCartesianAnywhere`. -/
def specCartesianAnywhereList : List LogicalPlan → Bool
  | [] => false
  | c :: cs => specCartesianAnywhere c || specCartesianAnywhereList cs

end

/-- Characterization of what `existsCartesianProduct` actually detects: a
cartesian join (zero equality conditions, type inner/left-outer/right-outer)
reachable from the root through nodes that are either non-joins or joins with
at least one equality condition — a join with zero equality conditions of any
other type stops the scan for its whole subtree. -/
inductive ReachesCartesian : LogicalPlan → Prop where
  | atJoin (joinType : JoinType) (children : List LogicalPlan) :
      (joinType = JoinType.innerJoin ∨ joinType = JoinType.leftOuterJoin ∨
        joinType = JoinType.rightOuterJoin) →
      ReachesCartesian (LogicalPlan.logicalJoin joinType [] children)
  | throughJoin (joinType : JoinType) (equalConditions : List Nat)
      (children : List LogicalPlan) (c : LogicalPlan) :
      equalConditions ≠ [] → c ∈ children → ReachesCartesian c →
      ReachesCartesian (LogicalPlan.logicalJoin joinType equalConditions children)
  | throughNode (children : List LogicalPlan) (c : LogicalPlan) :
      c ∈ children → ReachesCartesian c →
      ReachesCartesian (LogicalPlan.otherNode children)

/-! Part 2: rule catalog and the logical rule pipeline. -/

/-- The eight logical rewrite rules, named after the elements of `optRuleList`
(optimizer.go:43-52), in catalog order. -/
inductive OptRule where
  | columnPruner
  | projectionEliminater
  | buildKeySolver
  | decorrelateSolver
  | maxMinEliminator
  | ppdSolver
  | aggregationOptimizer
  | pushDownTopNOptimizer
deriving DecidableEq, Repr

/-- Embedding of `optRuleList` (optimizer.go:43-52): the fixed ordered rule
catalog. -/
def optRuleList : List OptRule :=
  [OptRule.columnPruner, OptRule.projectionEliminater, OptRule.buildKeySolver,
   OptRule.decorrelateSolver, OptRule.maxMinEliminator, OptRule.ppdSolver,
   OptRule.aggregationOptimizer, OptRule.pushDownTopNOptimizer]

/-- Errors produced along the `plan` package paths embedded here.
`newError msg` stands for `errors.New(msg)`; `cartesianProductUnsupported`
for `ErrCartesianProductUnsupported`; `internalNoPhysicalPlan` for
`ErrInternal.GenByArgs` with the no-proper-physical-plan message
(optimizer.go:172); `externalErr` for any opaque error coming out of an
external collaborator (builder, a rule body, statistics, cost search). -/
inductive PlanErr where
  | newError (msg : String)
  | cartesianProductUnsupported
  | internalNoPhysicalPlan
  | externalErr (code : Nat)
deriving DecidableEq, Repr

/-- A semantics for the rule bodies: the `optimize` method of each catalog
rule (their bodies live outside the embedded source, so they are a parameter
everywhere). -/
def RuleSem : Type := OptRule → LogicalPlan → Except PlanErr LogicalPlan

/-- The loop body of `logicalOptimize` (optimizer.go:146-157): walk the
catalog with its running index `i`, skip a rule when bit `i` of `flag` is
clear, otherwise feed the current plan to the rule and abort on error. -/
def runRulesFrom (opt : RuleSem) (flag : Nat) :
    Nat → List OptRule → LogicalPlan → Except PlanErr LogicalPlan
  | _, [], logic => Except.ok logic
  | i, r :: rs, logic =>
      if flag &&& (1 <<< i) = 0 then
        runRulesFrom opt flag (i + 1) rs logic
      else
        match opt r logic with
        | Except.error e => Except.error e
        | Except.ok logic1 => runRulesFrom opt flag (i + 1) rs logic1

/-- Embedding of `logicalOptimize` (optimizer.go:144-159): run the catalog
loop from index 0 over `optRuleList`.  (At the final `return logic,
errors.Trace(err)` the Go `err` is necessarily nil, since a non-nil `err`
returns inside the loop, so the success result is the last plan.) -/
def logicalOptimize (flag : Nat) (opt : RuleSem) (logic : LogicalPlan) :
    Except PlanErr LogicalPlan :=
  runRulesFrom opt flag 0 optRuleList logic

/-- Plain sequential application of a list of rules, each receiving the plan
produced by the previous one, aborting on the first error: the reference
fold that the pipeline is proved equal to. -/
def applyList (opt : RuleSem) : List OptRule → LogicalPlan → Except PlanErr LogicalPlan
  | [], logic => Except.ok logic
  | r :: rs, logic =>
      match opt r logic with
      | Except.error e => Except.error e
      | Except.ok logic1 => applyList opt rs logic1

/-- The sublist of the catalog selected by the bitmask, in catalog order:
rule `i` is kept exactly when bit `i` of `flag` is set. -/
def enabledRules (flag : Nat) : List OptRule :=
  ((optRuleList.enumFrom 0).filter (fun ir => !(flag &&& (1 <<< ir.1) == 0))).map
    Prod.snd

/-! Part 3: physical optimization (`physicalOptimize`, `doOptimize`). -/

/-- Task types of `requiredProp.taskTp`; `physicalOptimize` always asks for
`rootTaskType`. -/
inductive TaskType where
  | rootTaskType
  | copSingleReadTaskType
  | copDoubleReadTaskType
deriving DecidableEq, Repr

/-- The required physical property handed to `findBestTask`
(optimizer.go:167).  The Go value also carries `expectedCnt:
math.MaxFloat64`; the floating-point count plays no role in any claim and is
abstracted away. -/
structure RequiredProp where
  taskTp : TaskType
deriving DecidableEq, Repr

/-- Modelled from the spec: a physical plan (produced by the cost search,
which lives outside the embedded source) is an opaque tree carrying, for the
purpose of stating that index resolution runs exactly once, the number of
`ResolveIndices` passes already applied to it. -/
structure PhysicalPlan where
  tree : Nat
  resolveCount : Nat
deriving DecidableEq, Repr

/-- Modelled from the spec: `ResolveIndices` is the single finalization pass
converting column references into resolved positional references; its effect
on the opaque tree is abstracted, and each application is counted. -/
def PhysicalPlan.ResolveIndices (p : PhysicalPlan) : PhysicalPlan :=
  { tree := p.tree, resolveCount := p.resolveCount + 1 }

/-- A task of the cost search: `invalid` mirrors `task.invalid()`, `plan`
mirrors `task.plan()`. -/
structure PlanTask where
  invalid : Bool
  plan : PhysicalPlan
deriving DecidableEq, Repr

/-- Oracle bundle for the collaborators `physicalOptimize` and `doOptimize`
call into whose bodies are outside the embedded source:
`preparePossibleProperties` (an in-place annotation pass, modelled by state
passing), `deriveStats` (returns statistics or an error; its in-place stats
annotation is folded into the oracle), `findBestTask` (the property-directed
cost search) and `eliminatePhysicalProjection` (the final cleanup pass). -/
structure PhysEnv where
  preparePossibleProperties : LogicalPlan → LogicalPlan
  deriveStats : LogicalPlan → Except PlanErr Nat
  findBestTask : LogicalPlan → RequiredProp → Except PlanErr PlanTask
  eliminatePhysicalProjection : PhysicalPlan → PhysicalPlan

/-- Embedding of `physicalOptimize` (optimizer.go:161-177): prepare possible
properties, derive statistics, search for the best root task, reject an
invalid task with the internal no-physical-plan error, otherwise resolve
indices on the selected plan and return it. -/
def physicalOptimize (env : PhysEnv) (logic : LogicalPlan) :
    Except PlanErr PhysicalPlan :=
  let logic1 := env.preparePossibleProperties logic
  match env.deriveStats logic1 with
  | Except.error e => Except.error e
  | Except.ok _ =>
      match env.findBestTask logic1 { taskTp := TaskType.rootTaskType } with
      | Except.error e => Except.error e
      | Except.ok t =>
          if t.invalid then
            Except.error PlanErr.internalNoPhysicalPlan
          else
            Except.ok t.plan.ResolveIndices

/-- Embedding of `doOptimize` (optimizer.go:128-142): logical rule pipeline,
then the cartesian guard (reading the `AllowCartesianProduct` configuration,
threaded as an argument), then the physical search, then projection
elimination. -/
def doOptimize (allowCartesianProduct : Bool) (opt : RuleSem) (phys : PhysEnv)
    (flag : Nat) (logic : LogicalPlan) : Except PlanErr PhysicalPlan :=
  match logicalOptimize flag opt logic with
  | Except.error e => Except.error e
  | Except.ok logic1 =>
      if !allowCartesianProduct && existsCartesianProduct logic1 then
        Except.error PlanErr.cartesianProductUnsupported
      else
        match physicalOptimize phys logic1 with
        | Except.error e => Except.error e
        | Except.ok physical => Except.ok (phys.eliminatePhysicalProjection physical)

/-! Part 4: the driver (`Optimize`, `BuildLogicalPlan`, `checkPrivilege`). -/

/-- A visit record accumulated by the plan builder: {database, table, column,
required privilege} (the privilege kind abstracted to a number). -/
structure VisitInfo where
  db : String
  table : String
  column : String
  privilege : Nat
deriving DecidableEq, Repr

/-- Embedding of `checkPrivilege` (optimizer.go:118-126): every visit record
must pass `RequestVerification` on its four fields; the loop fails on the
first denial.  `pm` is the privilege manager oracle. -/
def checkPrivilege (pm : String → String → String → Nat → Bool)
    (vs : List VisitInfo) : Bool :=
  vs.all fun v => pm v.db v.table v.column v.privilege

/-- The `Plan` interface value a builder produces: a logical plan (the only
kind `doOptimize` runs on), a physical plan (so `doOptimize` results embed
into `Plan`), an `Execute` plan, or any other non-logical plan (inserts, DDL,
...), abstracted to an identifier. -/
inductive Plan where
  | logical (lp : LogicalPlan)
  | physical (pp : PhysicalPlan)
  | execute (ep : Nat)
  | other (id : Nat)

/-- Modelled from the spec: the result of the external plan builder
(`planBuilder`, outside the embedded source): the built plan, the builder
error field, the accumulated visit records, and the per-query rule flag
bitmask `optFlag`. -/
structure BuildResult where
  p : Plan
  err : Option PlanErr
  visitInfo : List VisitInfo
  optFlag : Nat

/-- Query nodes handed to `Optimize` are opaque. -/
abbrev AstNode : Type := Nat

/-- Oracle bundle for one `Optimize` call: the builder, the optional
privilege manager (`GetPrivilegeManager` may return nil), the rule-body
semantics, the physical-search oracles, the prepared-plan hook of `Execute`
plans, and the process-wide `AllowCartesianProduct` configuration. -/
structure Env where
  build : AstNode → BuildResult
  pm : Option (String → String → String → Nat → Bool)
  ruleOpt : RuleSem
  phys : PhysEnv
  optimizePreparedPlan : Nat → Option PlanErr
  allowCartesianProduct : Bool

/-- Embedding of `Optimize` (optimizer.go:61-101): build the plan, fail on a
builder error; when a privilege manager is present, fail when
`checkPrivilege` denies; for a logical plan return `doOptimize`; for an
`Execute` plan run its prepared-plan hook (the Go code returns the plan
alongside a traced error — rendered here as error-first, the convention of
every caller); any other plan is returned as built. -/
def Optimize (env : Env) (node : AstNode) : Except PlanErr Plan :=
  let b := env.build node
  match b.err with
  | some e => Except.error e
  | none =>
      let privOK : Bool :=
        match env.pm with
        | some pm => checkPrivilege pm b.visitInfo
        | none => true
      if privOK = false then
        Except.error (PlanErr.newError "privilege check fail")
      else
        match b.p with
        | Plan.logical logic =>
            (doOptimize env.allowCartesianProduct env.ruleOpt env.phys
              b.optFlag logic).map Plan.physical
        | Plan.execute ep =>
            match env.optimizePreparedPlan ep with
            | some e => Except.error e
            | none => Except.ok (Plan.execute ep)
        | p => Except.ok p

/-- Embedding of `BuildLogicalPlan` (optimizer.go:104-116): run the builder
and return its plan untouched, or its error. -/
def BuildLogicalPlan (env : Env) (node : AstNode) : Except PlanErr Plan :=
  let b := env.build node
  match b.err with
  | some e => Except.error e
  | none => Except.ok b.p

/-! Part 5: the transactional memory buffer (`kv` package). -/

/-- Keys are byte slices. -/
abbrev Key : Type := List Nat

/-- Errors of the `kv` package paths embedded here. `notExist` stands for
`ErrNotExist`, `cannotSetNilValue` for `ErrCannotSetNilValue`,
`entryTooLarge` and `txnTooLarge` for the size-limit errors of `Set` (with
the offending measure), `retrieverErr` for an opaque error of the underlying
retriever. -/
inductive KvErr where
  | notExist
  | cannotSetNilValue
  | entryTooLarge (size : Nat)
  | txnTooLarge (n : Nat)
  | retrieverErr (code : Nat)
deriving DecidableEq, Repr

/-- The goleveldb in-memory table (external library): an association map
from keys to byte-slice values, with the first binding for a key the live
one. -/
structure MemDb where
  entries : List (Key × List Nat)
deriving DecidableEq, Repr

/-- Lookup in the table (`memdb.DB.Get`): the value bound to `k`, or none
when absent. -/
def MemDb.get (db : MemDb) (k : Key) : Option (List Nat) :=
  (db.entries.find? fun e => e.1 == k).map Prod.snd

/-- Upsert into the table (`memdb.DB.Put`): replace any binding of `k` with
`v` (a nil Go value arrives as the empty slice `[]`). -/
def MemDb.put (db : MemDb) (k : Key) (v : List Nat) : MemDb :=
  { entries := (db.entries.filter fun e => !(e.1 == k)) ++ [(k, v)] }

/-- Sum of key and value lengths (`memdb.DB.Size`). -/
def MemDb.size (db : MemDb) : Nat :=
  (db.entries.map fun e => e.1.length + e.2.length).sum

/-- Number of entries (`memdb.DB.Len`). -/
def MemDb.len (db : MemDb) : Nat :=
  db.entries.length

/-- Embedding of the `memDbBuffer` struct (memdb_buffer.go:33-38). -/
structure MemDbBuffer where
  db : MemDb
  entrySizeLimit : Nat
  bufferLenLimit : Nat
  bufferSizeLimit : Nat
deriving DecidableEq, Repr

/-- Embedding of `memDbBuffer.Get` (memdb_buffer.go:88-94): a missing key
becomes `ErrNotExist`; a present key returns its stored value, including the
empty delete marker. -/
def MemDbBuffer.Get (m : MemDbBuffer) (k : Key) : Except KvErr (List Nat) :=
  match m.db.get k with
  | none => Except.error KvErr.notExist
  | some v => Except.ok v

/-- Embedding of `memDbBuffer.Set` (memdb_buffer.go:98-115).  The Go method
mutates the receiver in place, so the embedding returns the buffer after the
call together with the optional error: an empty value is rejected before any
write; an oversized entry is rejected before any write; otherwise the pair is
written and the transaction-size limits are checked afterwards (so those two
errors leave the write in place, exactly as in Go). -/
def MemDbBuffer.Set (m : MemDbBuffer) (k : Key) (v : List Nat) :
    MemDbBuffer × Option KvErr :=
  if v.length = 0 then
    (m, some KvErr.cannotSetNilValue)
  else if k.length + v.length > m.entrySizeLimit then
    (m, some (KvErr.entryTooLarge (k.length + v.length)))
  else
    let m1 : MemDbBuffer := { m with db := m.db.put k v }
    if m1.db.size > m1.bufferSizeLimit then
      (m1, some (KvErr.txnTooLarge m1.db.size))
    else if m1.db.len > m1.bufferLenLimit then
      (m1, some (KvErr.txnTooLarge m1.db.len))
    else
      (m1, none)

/-- Embedding of `memDbBuffer.Delete` (memdb_buffer.go:118-121): store a nil
value (the empty slice) for `k`. -/
def MemDbBuffer.Delete (m : MemDbBuffer) (k : Key) : MemDbBuffer × Option KvErr :=
  ({ m with db := m.db.put k [] }, none)

/-- Modelled from the spec: `IsErrNotFound` (kv error helpers, outside the
embedded source) recognizes exactly the not-exist error, which is what the
buffer reports for a missing key. -/
def IsErrNotFound (e : KvErr) : Bool :=
  e == KvErr.notExist

/-- Embedding of the `BufferStore` struct (buffer_store section): a memory
buffer for writes plus an underlying retriever oracle `r` for reads. -/
structure BufferStore where
  memBuffer : MemDbBuffer
  r : Key → Except KvErr (List Nat)

/-- Embedding of `BufferStore.Get` (buffer_store section): read the buffer,
fall back to the retriever exactly when the buffer reports not-found,
propagate any other error, and turn a zero-length value (a delete marker)
into `ErrNotExist`. -/
def BufferStore.Get (s : BufferStore) (k : Key) : Except KvErr (List Nat) :=
  let step1 : Except KvErr (List Nat) :=
    match s.memBuffer.Get k with
    | Except.error e => if IsErrNotFound e then s.r k else Except.error e
    | Except.ok v => Except.ok v
  match step1 with
  | Except.error e => Except.error e
  | Except.ok v => if v.length = 0 then Except.error KvErr.notExist else Except.ok v

/-! Part 6: theorems. -/

lemma sizeOf_child_lt_join (jt : JoinType) (eqs : List Nat)
    (cs : List LogicalPlan) (c : LogicalPlan) (hc : c ∈ cs) :
    sizeOf c < sizeOf (LogicalPlan.logicalJoin jt eqs cs) := by
  have h1 := List.sizeOf_lt_of_mem hc
  have h2 : sizeOf (LogicalPlan.logicalJoin jt eqs cs)
      = 1 + sizeOf jt + sizeOf eqs + sizeOf cs := by simp
  omega

lemma sizeOf_child_lt_node (cs : List LogicalPlan) (c : LogicalPlan)
    (hc : c ∈ cs) : sizeOf c < sizeOf (LogicalPlan.otherNode cs) := by
  have h1 := List.sizeOf_lt_of_mem hc
  have h2 : sizeOf (LogicalPlan.otherNode cs) = 1 + sizeOf cs := by simp
  omega

lemma existsCartesianProductList_iff (cs : List LogicalPlan) :
    existsCartesianProductList cs = true ↔
      ∃ c, c ∈ cs ∧ existsCartesianProduct c = true := by
  induction cs with
  | nil => simp [existsCartesianProductList]
  | cons c cs ih => simp [existsCartesianProductList, ih, List.mem_cons, or_and_right,
      exists_or, exists_eq_left]

lemma joinType_cart_iff (jt : JoinType) :
    (jt == JoinType.innerJoin || jt == JoinType.leftOuterJoin ||
      jt == JoinType.rightOuterJoin) = true ↔
    (jt = JoinType.innerJoin ∨ jt = JoinType.leftOuterJoin ∨
      jt = JoinType.rightOuterJoin) := by
  cases jt <;> decide

lemma existsCart_forward : ∀ n (p : LogicalPlan), sizeOf p ≤ n →
    existsCartesianProduct p = true → ReachesCartesian p := by
  intro n
  induction n with
  | zero =>
      intro p hp _
      exfalso
      cases p with
      | logicalJoin jt eqs cs =>
          have h2 : sizeOf (LogicalPlan.logicalJoin jt eqs cs)
              = 1 + sizeOf jt + sizeOf eqs + sizeOf cs := by simp
          omega
      | otherNode cs =>
          have h2 : sizeOf (LogicalPlan.otherNode cs) = 1 + sizeOf cs := by simp
          omega
  | succ n ih =>
      intro p hp h
      cases p with
      | logicalJoin jt eqs cs =>
          simp only [existsCartesianProduct] at h
          by_cases heq : eqs.length = 0
          · rw [if_pos heq] at h
            have heqs : eqs = [] := List.length_eq_zero.mp heq
            subst heqs
            exact ReachesCartesian.atJoin jt cs ((joinType_cart_iff jt).mp h)
          · rw [if_neg heq] at h
            obtain ⟨c, hc, hcart⟩ := (existsCartesianProductList_iff cs).mp h
            have hlt := sizeOf_child_lt_join jt eqs cs c hc
            have hne : eqs ≠ [] := by
              intro hnil
              exact heq (by simp [hnil])
            exact ReachesCartesian.throughJoin jt eqs cs c hne hc
              (ih c (by omega) hcart)
      | otherNode cs =>
          simp only [existsCartesianProduct] at h
          obtain ⟨c, hc, hcart⟩ := (existsCartesianProductList_iff cs).mp h
          have hlt := sizeOf_child_lt_node cs c hc
          exact ReachesCartesian.throughNode cs c hc (ih c (by omega) hcart)

lemma existsCart_backward (p : LogicalPlan) (h : ReachesCartesian p) :
    existsCartesianProduct p = true := by
  induction h with
  | atJoin jt cs hjt =>
      simp only [existsCartesianProduct]
      rw [if_pos (by simp)]
      exact (joinType_cart_iff jt).mpr hjt
  | throughJoin jt eqs cs c hne hc _ ih =>
      simp only [existsCartesianProduct]
      rw [if_neg (by simpa using hne)]
      exact (existsCartesianProductList_iff cs).mpr ⟨c, hc, ih⟩
  | throughNode cs c hc _ ih =>
      simp only [existsCartesianProduct]
      exact (existsCartesianProductList_iff cs).mpr ⟨c, hc, ih⟩

/-- A semi-join with zero equality conditions whose only child is an inner
join with zero equality conditions: the claimed tree-wide predicate sees the
inner cartesian join, the code does not. -/
def cartCexPlan : LogicalPlan :=
  LogicalPlan.logicalJoin JoinType.semiJoin []
    [LogicalPlan.logicalJoin JoinType.innerJoin [] []]

/-- C1 counterexample: on `cartCexPlan`, `existsCartesianProduct` returns
false although a join node with zero equality conditions and inner type
exists in the tree (`specCartesianAnywhere`, written after the claim text,
returns true), so the claimed equivalence fails at this input: the scan is
not tree-wide. -/
theorem c1_counterexample :
    existsCartesianProduct cartCexPlan = false ∧
    specCartesianAnywhere cartCexPlan = true ∧
    ¬(existsCartesianProduct cartCexPlan = true ↔
        specCartesianAnywhere cartCexPlan = true) := by
  refine ⟨rfl, rfl, ?_⟩
  intro hiff
  exact Bool.false_ne_true (hiff.mpr rfl)

/-- C1 (amended): `existsCartesianProduct` returns true exactly when a join
node with zero equality conditions and join type inner, left-outer or
right-outer is reachable from the root through nodes that are either
non-joins or joins with at least one equality condition; a join with at
least one equality condition never itself makes it true, a zero-equality
join of any other type (e.g. semi-join) makes it false for its entire
subtree without examining that join's children. -/
theorem c1_existsCartesianProduct_characterization (p : LogicalPlan) :
    existsCartesianProduct p = true ↔ ReachesCartesian p :=
  ⟨existsCart_forward (sizeOf p) p (Nat.le_refl _), existsCart_backward p⟩

lemma runRulesFrom_eq_applyList (opt : RuleSem) (flag : Nat) :
    ∀ (rs : List OptRule) (i : Nat) (logic : LogicalPlan),
    runRulesFrom opt flag i rs logic =
      applyList opt
        (((rs.enumFrom i).filter fun ir => !(flag &&& (1 <<< ir.1) == 0)).map
          Prod.snd) logic := by
  intro rs
  induction rs with
  | nil => intro i logic; rfl
  | cons r rs ih =>
      intro i logic
      by_cases hbit : flag &&& (1 <<< i) = 0
      · have hpred : (!(flag &&& (1 <<< i) == 0)) = false := by simp [hbit]
        simp only [runRulesFrom, if_pos hbit, List.enumFrom, List.filter_cons,
          hpred, Bool.false_eq_true, if_neg, ite_false]
        exact ih (i + 1) logic
      · have hpred : (!(flag &&& (1 <<< i) == 0)) = true := by simp [hbit]
        simp only [runRulesFrom, if_neg hbit, List.enumFrom, List.filter_cons,
          hpred, ite_true, List.map_cons, applyList]
        cases hopt : opt r logic with
        | error e => rfl
        | ok logic1 => exact ih (i + 1) logic1

lemma logicalOptimize_eq_applyList (flag : Nat) (opt : RuleSem)
    (logic : LogicalPlan) :
    logicalOptimize flag opt logic = applyList opt (enabledRules flag) logic :=
  runRulesFrom_eq_applyList opt flag optRuleList 0 logic

lemma applyList_append (opt : RuleSem) :
    ∀ (xs ys : List OptRule) (logic : LogicalPlan),
    applyList opt (xs ++ ys) logic =
      (applyList opt xs logic).bind fun p => applyList opt ys p := by
  intro xs
  induction xs with
  | nil => intro ys logic; rfl
  | cons x xs ih =>
      intro ys logic
      simp only [List.cons_append, applyList]
      cases opt x logic with
      | error e => rfl
      | ok logic1 => exact ih ys logic1

lemma applyList_congr (opt opt' : RuleSem) :
    ∀ (rs : List OptRule) (logic : LogicalPlan),
    (∀ r, r ∈ rs → opt' r = opt r) →
    applyList opt' rs logic = applyList opt rs logic := by
  intro rs
  induction rs with
  | nil => intro logic _; rfl
  | cons r rs ih =>
      intro logic hagree
      simp only [applyList, hagree r (List.mem_cons_self r rs)]
      cases opt r logic with
      | error e => rfl
      | ok logic1 => exact ih logic1 fun r0 hr0 => hagree r0 (List.mem_cons_of_mem r hr0)

/-- C2: for every flag bitmask, `logicalOptimize` equals the plain sequential
application (each rule receiving the previous applied rule's output, aborting
on error) of exactly the catalog rules whose bit is set, in catalog order
(`enabledRules`); and enabling only bit `k` selects exactly catalog rule `k`
and no other. -/
theorem c2_logicalOptimize_rule_selection :
    (∀ (flag : Nat) (opt : RuleSem) (logic : LogicalPlan),
      logicalOptimize flag opt logic = applyList opt (enabledRules flag) logic)
    ∧ ∀ k, (h : k < optRuleList.length) →
        enabledRules (1 <<< k) = [optRuleList.get ⟨k, h⟩] := by
  constructor
  · intro flag opt logic
    exact logicalOptimize_eq_applyList flag opt logic
  · intro k h
    have h8 : k < 8 := h
    interval_cases k <;> rfl

/-- A rule semantics that leaves every plan unchanged. -/
def idRuleSem : RuleSem := fun _ p => Except.ok p

/-- A small concrete plan. -/
def wLogic : LogicalPlan := LogicalPlan.otherNode []

/-- Witness for C2 at flag 37 and at bit 3. -/
theorem c2_witness :
    logicalOptimize 37 idRuleSem wLogic = applyList idRuleSem (enabledRules 37) wLogic ∧
    enabledRules (1 <<< 3) = [optRuleList.get ⟨3, by decide⟩] :=
  ⟨c2_logicalOptimize_rule_selection.1 37 idRuleSem wLogic,
   c2_logicalOptimize_rule_selection.2 3 (by decide)⟩

/-- C6: if the enabled-rule sequence splits as `rs1 ++ r :: rs2` and `r`
fails on the plan produced by the prefix `rs1`, then `logicalOptimize`
returns exactly that rule's error — for every rule semantics agreeing on the
prefix and on `r`, whatever the later rules `rs2` would do, so no later rule
is invoked; the `Except` result carries the error and no plan. -/
theorem c6_logicalOptimize_abort_on_error
    (flag : Nat) (opt opt' : RuleSem) (logic : LogicalPlan)
    (rs1 : List OptRule) (r : OptRule) (rs2 : List OptRule)
    (p : LogicalPlan) (e : PlanErr)
    (hsplit : enabledRules flag = rs1 ++ r :: rs2)
    (hpre : applyList opt rs1 logic = Except.ok p)
    (herr : opt r p = Except.error e)
    (hagree : ∀ r0, r0 ∈ rs1 → opt' r0 = opt r0)
    (hr : opt' r = opt r) :
    logicalOptimize flag opt' logic = Except.error e := by
  rw [logicalOptimize_eq_applyList, hsplit, applyList_append,
    applyList_congr opt opt' rs1 logic hagree, hpre]
  show applyList opt' (r :: rs2) p = Except.error e
  simp only [applyList, hr, herr]

/-- A rule semantics whose projection-eliminator body fails. -/
def failRuleSem : RuleSem := fun r p =>
  match r with
  | OptRule.projectionEliminater => Except.error (PlanErr.externalErr 42)
  | _ => Except.ok p

/-- Witness for C6: with bits 0 and 1 enabled and the second rule failing,
the pipeline returns that rule's error. -/
theorem c6_witness :
    logicalOptimize 3 failRuleSem wLogic = Except.error (PlanErr.externalErr 42) :=
  c6_logicalOptimize_abort_on_error 3 failRuleSem failRuleSem wLogic
    [OptRule.columnPruner] OptRule.projectionEliminater []
    wLogic (PlanErr.externalErr 42)
    (by decide) rfl rfl (fun r0 _ => rfl) rfl

/-- C3: if the rule pipeline rewrites `logic` to `logic1` and the policy
disallows cartesian products, then whenever `logic1` contains a cartesian
join `doOptimize` returns exactly `ErrCartesianProductUnsupported`, and the
result is the same for every physical-search oracle — no physical search is
attempted; with the permissive policy `doOptimize` is the physical search
followed by projection elimination, so the guard never rejects. -/
theorem c3_doOptimize_cartesian_guard
    (opt : RuleSem) (phys phys' : PhysEnv) (flag : Nat)
    (logic logic1 : LogicalPlan)
    (h : logicalOptimize flag opt logic = Except.ok logic1) :
    (existsCartesianProduct logic1 = true →
      doOptimize false opt phys flag logic =
        Except.error PlanErr.cartesianProductUnsupported
      ∧ doOptimize false opt phys' flag logic =
        Except.error PlanErr.cartesianProductUnsupported)
    ∧ doOptimize true opt phys flag logic =
        (physicalOptimize phys logic1).map phys.eliminatePhysicalProjection := by
  constructor
  · intro hcart
    constructor <;> simp [doOptimize, h, hcart]
  · simp only [doOptimize, h, Bool.not_true, Bool.false_and, Bool.false_eq_true,
      if_false, ite_false]
    cases physicalOptimize phys logic1 with
    | error e => rfl
    | ok physical => rfl

/-- A cartesian inner join of two leaves. -/
def wCartLogic : LogicalPlan := LogicalPlan.logicalJoin JoinType.innerJoin [] []

/-- A physical-search oracle returning a valid task over the abstract tree 7. -/
def wPhysEnv : PhysEnv where
  preparePossibleProperties := fun l => l
  deriveStats := fun _ => Except.ok 0
  findBestTask := fun _ _ =>
    Except.ok { invalid := false, plan := { tree := 7, resolveCount := 0 } }
  eliminatePhysicalProjection := fun p => p

/-- Witness for C3: flag 0 (no rule applied) on a cartesian inner join. -/
theorem c3_witness :
    doOptimize false idRuleSem wPhysEnv 0 wCartLogic =
      Except.error PlanErr.cartesianProductUnsupported ∧
    doOptimize true idRuleSem wPhysEnv 0 wCartLogic =
      (physicalOptimize wPhysEnv wCartLogic).map
        wPhysEnv.eliminatePhysicalProjection := by
  have h := c3_doOptimize_cartesian_guard idRuleSem wPhysEnv wPhysEnv 0
    wCartLogic wCartLogic rfl
  exact ⟨(h.1 rfl).1, h.2⟩

/-- C5: when statistics derivation succeeds and the cost search returns the
root task `t`, an invalid `t` makes `physicalOptimize` fail with the
internal no-physical-plan error (a constructor distinct from the
user-facing errors), and the function's return type is `PhysicalPlan`, so a
logical plan is never returned in its place; a valid `t` makes it return
`t.plan` with `ResolveIndices` applied exactly once (the resolution-pass
count of the returned plan is the task's count plus one). -/
theorem c5_physicalOptimize_spec
    (env : PhysEnv) (logic : LogicalPlan) (s : Nat) (t : PlanTask)
    (hstats : env.deriveStats (env.preparePossibleProperties logic) = Except.ok s)
    (htask : env.findBestTask (env.preparePossibleProperties logic)
      { taskTp := TaskType.rootTaskType } = Except.ok t) :
    (t.invalid = true →
      physicalOptimize env logic = Except.error PlanErr.internalNoPhysicalPlan
      ∧ (∀ msg, PlanErr.internalNoPhysicalPlan ≠ PlanErr.newError msg)
      ∧ PlanErr.internalNoPhysicalPlan ≠ PlanErr.cartesianProductUnsupported)
    ∧ (t.invalid = false →
      physicalOptimize env logic = Except.ok t.plan.ResolveIndices
      ∧ t.plan.ResolveIndices.resolveCount = t.plan.resolveCount + 1) := by
  constructor
  · intro hinv
    refine ⟨?_, fun msg => by simp, by simp⟩
    simp [physicalOptimize, hstats, htask, hinv]
  · intro hinv
    refine ⟨?_, rfl⟩
    simp [physicalOptimize, hstats, htask, hinv]

/-- Witness for C5: the valid task of `wPhysEnv` comes back resolved once. -/
theorem c5_witness :
    physicalOptimize wPhysEnv wLogic = Except.ok { tree := 7, resolveCount := 1 } := by
  have h := c5_physicalOptimize_spec wPhysEnv wLogic 0
    { invalid := false, plan := { tree := 7, resolveCount := 0 } } rfl rfl
  exact (h.2 rfl).1

/-- C4: `Optimize` runs its phases in a fixed order: a builder error returns
first; with a privilege manager present, a denied check returns the
privilege error next — and does so for every environment agreeing on builder
and privilege manager, so no rewrite rule, guard or search has run; the
check passes exactly when every accumulated visit record is verified; and on
a passed check a logical plan goes to `doOptimize`, which is by definition
rule pipeline, then cartesian guard, then cost search, then projection
elimination. -/
theorem c4_optimize_phase_order (env : Env) (node : AstNode) :
    (∀ e, (env.build node).err = some e → Optimize env node = Except.error e)
    ∧ (∀ pm, (env.build node).err = none → env.pm = some pm →
        ((checkPrivilege pm (env.build node).visitInfo = false →
            Optimize env node = Except.error (PlanErr.newError "privilege check fail")
            ∧ ∀ env' : Env, env'.build = env.build → env'.pm = env.pm →
                Optimize env' node =
                  Except.error (PlanErr.newError "privilege check fail"))
        ∧ (checkPrivilege pm (env.build node).visitInfo = true ↔
            ∀ v ∈ (env.build node).visitInfo,
              pm v.db v.table v.column v.privilege = true)
        ∧ (checkPrivilege pm (env.build node).visitInfo = true →
            ∀ logic, (env.build node).p = Plan.logical logic →
              Optimize env node =
                (doOptimize env.allowCartesianProduct env.ruleOpt env.phys
                  (env.build node).optFlag logic).map Plan.physical))) := by
  refine ⟨?_, ?_⟩
  · intro e he
    simp [Optimize, he]
  · intro pm hnone hpm
    refine ⟨?_, ?_, ?_⟩
    · intro hfail
      refine ⟨by simp [Optimize, hnone, hpm, hfail], ?_⟩
      intro env' hb hpm'
      simp [Optimize, hb, hpm', hnone, hpm, hfail]
    · simp [checkPrivilege, List.all_eq_true]
    · intro hok logic hlog
      simp [Optimize, hnone, hpm, hok, hlog]

/-- A privilege manager that denies every request. -/
def denyAllPm : String → String → String → Nat → Bool := fun _ _ _ _ => false

/-- An environment whose builder accumulates one visit record on database
dbA and whose privilege manager denies it. -/
def privEnvA : Env where
  build := fun _ =>
    { p := Plan.other 0, err := none,
      visitInfo := [{ db := "dbA", table := "tA", column := "cA", privilege := 1 }],
      optFlag := 0 }
  pm := some denyAllPm
  ruleOpt := idRuleSem
  phys := wPhysEnv
  optimizePreparedPlan := fun _ => none
  allowCartesianProduct := true

/-- Witness for C4: the denied check makes `Optimize` fail with the
privilege error. -/
theorem c4_witness :
    Optimize privEnvA 0 = Except.error (PlanErr.newError "privilege check fail") := by
  have h := (c4_optimize_phase_order privEnvA 0).2 denyAllPm rfl rfl
  exact (h.1 rfl).1

/-- Like `privEnvA` but the denied visit record names a different
{database, table, column, privilege} triplet. -/
def privEnvB : Env where
  build := fun _ =>
    { p := Plan.other 0, err := none,
      visitInfo := [{ db := "dbB", table := "tB", column := "cB", privilege := 2 }],
      optFlag := 0 }
  pm := some denyAllPm
  ruleOpt := idRuleSem
  phys := wPhysEnv
  optimizePreparedPlan := fun _ => none
  allowCartesianProduct := true

/-- C7 counterexample: two runs whose denied visit records name different
{database, table, column, privilege} triplets return the very same constant
error value (`errors.New "privilege check fail"`), so the error reports
nothing about which object lacked which privilege. -/
theorem c7_counterexample :
    Optimize privEnvA 0 = Optimize privEnvB 0 ∧
    Optimize privEnvA 0 = Except.error (PlanErr.newError "privilege check fail") ∧
    (privEnvA.build 0).visitInfo ≠ (privEnvB.build 0).visitInfo := by
  refine ⟨rfl, rfl, by decide⟩

/-- C7 (amended): when the privilege check fails, `Optimize` returns the
fixed generic error `errors.New "privilege check fail"`, which identifies
neither the object nor the privilege that was denied. -/
theorem c7_privilege_error_generic
    (env : Env) (node : AstNode) (pm : String → String → String → Nat → Bool)
    (hnone : (env.build node).err = none)
    (hpm : env.pm = some pm)
    (hfail : checkPrivilege pm (env.build node).visitInfo = false) :
    Optimize env node = Except.error (PlanErr.newError "privilege check fail") := by
  simp [Optimize, hnone, hpm, hfail]

/-- Witness for C7 at the concrete denying environment `privEnvB`. -/
theorem c7_witness :
    Optimize privEnvB 0 = Except.error (PlanErr.newError "privilege check fail") :=
  c7_privilege_error_generic privEnvB 0 denyAllPm rfl rfl rfl

/-- C8: `BuildLogicalPlan` returns the builder's plan unmodified on success
and the builder's error on failure, and its result depends only on the
builder — every environment with the same builder (any rule semantics,
guard policy or search oracle) produces the same result, so no rewrite,
guard or search is applied. -/
theorem c8_buildLogicalPlan_spec (env : Env) (node : AstNode) :
    ((env.build node).err = none →
      BuildLogicalPlan env node = Except.ok (env.build node).p)
    ∧ (∀ e, (env.build node).err = some e →
      BuildLogicalPlan env node = Except.error e)
    ∧ (∀ env' : Env, env'.build = env.build →
      BuildLogicalPlan env' node = BuildLogicalPlan env node) := by
  refine ⟨?_, ?_, ?_⟩
  · intro h
    simp [BuildLogicalPlan, h]
  · intro e h
    simp [BuildLogicalPlan, h]
  · intro env' hb
    simp [BuildLogicalPlan, hb]

/-- Witness for C8: the builder's plan comes back untouched. -/
theorem c8_witness : BuildLogicalPlan privEnvA 0 = Except.ok (Plan.other 0) :=
  (c8_buildLogicalPlan_spec privEnvA 0).1 rfl

lemma find_put_aux (l : List (Key × List Nat)) (k : Key) (v : List Nat) :
    (((l.filter fun e => !(e.1 == k)) ++ [(k, v)]).find? fun e => e.1 == k)
      = some (k, v) := by
  induction l with
  | nil => simp [List.find?]
  | cons e es ih =>
      by_cases h : (e.1 == k) = true
      · simp only [List.filter_cons, h, Bool.not_true, Bool.false_eq_true, ite_false]
        exact ih
      · have hf : (e.1 == k) = false := by simpa using h
        simp only [List.filter_cons, hf, Bool.not_false, ite_true, List.cons_append,
          List.find?_cons, hf]
        exact ih

lemma memDb_get_put (db : MemDb) (k : Key) (v : List Nat) :
    (db.put k v).get k = some v := by
  show (((db.entries.filter fun e => !(e.1 == k)) ++ [(k, v)]).find?
      fun e => e.1 == k).map Prod.snd = some v
  rw [find_put_aux]
  rfl

/-- C9: `Set` with a zero-length value returns `ErrCannotSetNilValue` and
returns the buffer exactly as it was (the empty-value check precedes any
write); and `Delete` stores the zero-length value as the binding of the key
(the delete marker), reporting no error. -/
theorem c9_set_empty_value
    (m : MemDbBuffer) (k : Key) (v : List Nat) (hv : v.length = 0) :
    MemDbBuffer.Set m k v = (m, some KvErr.cannotSetNilValue)
    ∧ ∀ k0 : Key, (MemDbBuffer.Delete m k0).1.db.get k0 = some []
        ∧ (MemDbBuffer.Delete m k0).2 = none := by
  constructor
  · simp [MemDbBuffer.Set, hv]
  · intro k0
    exact ⟨memDb_get_put m.db k0 [], rfl⟩

/-- An empty buffer with generous limits. -/
def wBuf : MemDbBuffer where
  db := { entries := [] }
  entrySizeLimit := 100
  bufferLenLimit := 100
  bufferSizeLimit := 100

/-- Witness for C9 on the empty buffer, key [1] and the empty value, and a
delete of key [2]. -/
theorem c9_witness :
    MemDbBuffer.Set wBuf [1] [] = (wBuf, some KvErr.cannotSetNilValue) ∧
    (MemDbBuffer.Delete wBuf [2]).1.db.get [2] = some [] ∧
    (MemDbBuffer.Delete wBuf [2]).2 = none := by
  have h := c9_set_empty_value wBuf [1] [] rfl
  exact ⟨h.1, (h.2 [2]).1, (h.2 [2]).2⟩

/-- C10: `BufferStore.Get` reads the buffer first — on a buffer hit the
result is the same for every retriever, a non-empty hit is returned and an
empty hit (delete marker) becomes `ErrNotExist`; on a buffer not-found it
falls back to the retriever, whose non-empty value is returned, whose empty
value becomes `ErrNotExist` and whose error is propagated; and every
successful `Get` returns a non-empty value. -/
theorem c10_bufferStore_get_spec (s : BufferStore) (k : Key) :
    (∀ v, s.memBuffer.Get k = Except.ok v →
        ((∀ r0, BufferStore.Get { s with r := r0 } k = BufferStore.Get s k)
        ∧ (v.length ≠ 0 → BufferStore.Get s k = Except.ok v)
        ∧ (v.length = 0 → BufferStore.Get s k = Except.error KvErr.notExist)))
    ∧ (s.memBuffer.Get k = Except.error KvErr.notExist →
        ((∀ v, s.r k = Except.ok v →
            ((v.length ≠ 0 → BufferStore.Get s k = Except.ok v)
            ∧ (v.length = 0 → BufferStore.Get s k = Except.error KvErr.notExist)))
        ∧ (∀ e, s.r k = Except.error e → BufferStore.Get s k = Except.error e)))
    ∧ (∀ v, BufferStore.Get s k = Except.ok v → v.length ≠ 0) := by
  refine ⟨?_, ?_, ?_⟩
  · intro v hbuf
    refine ⟨?_, ?_, ?_⟩
    · intro r0
      simp [BufferStore.Get, hbuf]
    · intro hne
      simp [BufferStore.Get, hbuf, hne]
    · intro hz
      simp [BufferStore.Get, hbuf, hz]
  · intro hbuf
    constructor
    · intro v hr
      constructor <;> intro h <;> simp [BufferStore.Get, hbuf, IsErrNotFound, hr, h]
    · intro e hr
      simp [BufferStore.Get, hbuf, IsErrNotFound, hr]
  · intro v hget hz
    cases hbuf : s.memBuffer.Get k with
    | ok w =>
        simp [BufferStore.Get, hbuf] at hget
        by_cases hw : w = []
        · simp [hw] at hget
        · simp [hw] at hget
          subst hget
          exact hw (List.length_eq_zero.mp hz)
    | error e =>
        by_cases he : e = KvErr.notExist
        · subst he
          cases hr : s.r k with
          | ok w =>
              simp [BufferStore.Get, hbuf, IsErrNotFound, hr] at hget
              by_cases hw : w = []
              · simp [hw] at hget
              · simp [hw] at hget
                subst hget
                exact hw (List.length_eq_zero.mp hz)
          | error e2 =>
              simp [BufferStore.Get, hbuf, IsErrNotFound, hr] at hget
        · simp [BufferStore.Get, hbuf, IsErrNotFound, he] at hget

/-- A store whose buffer holds key [1] with value [9] and a delete marker
for key [2], over a retriever that knows key [3] with value [8]. -/
def wStore : BufferStore where
  memBuffer :=
    { db := { entries := [([1], [9]), ([2], [])] },
      entrySizeLimit := 100, bufferLenLimit := 100, bufferSizeLimit := 100 }
  r := fun k => if k == [3] then Except.ok [8] else Except.error KvErr.notExist

/-- Witness for C10: a buffered value is served from the buffer, a buffered
delete marker yields `ErrNotExist`, and a missing key falls back to the
retriever. -/
theorem c10_witness :
    BufferStore.Get wStore [1] = Except.ok [9] ∧
    BufferStore.Get wStore [2] = Except.error KvErr.notExist ∧
    BufferStore.Get wStore [3] = Except.ok [8] := by
  refine ⟨?_, ?_, ?_⟩
  · exact (((c10_bufferStore_get_spec wStore [1]).1 [9] rfl).2.1 (by decide))
  · exact (((c10_bufferStore_get_spec wStore [2]).1 [] rfl).2.2 rfl)
  · exact ((((c10_bufferStore_get_spec wStore [3]).2.1 rfl).1 [8] rfl).1 (by decide))
